import Mathlib

/-!
Verification of the ai-act-label annotation tool.

This file gives a shallow embedding of the data model and the pure
computational core of the repository:

* `src/tabs/labeling_daniel.py` — ternary/binary category classification,
  label encode/decode, frontmatter stripping, keyword highlighting,
  progress / next-document selection, targeted-merge upload;
* `src/tabs/ai_act_mapping.py` — the one-row-per-category reduction of the
  mapping table;
* `src/tabs/categories.py` — the category registry update (rename) branch;
* `src/utils/gdrive.py` — text decoding of downloaded bytes.

Text is modelled as `List Char` (one entry per Unicode scalar, matching
Python's per-code-point string model); tabular data as lists of rows whose
cells are looked up by column name.  Python's `str.strip` is modelled on
ASCII-style whitespace via `Char.isWhitespace`, and `str.lower` via
`Char.toLower`; all strings appearing in the repository's data are covered
by these.
-/

/-- Python `str.strip()` on a list of characters: drop whitespace from both
ends. -/
def stripChars (l : List Char) : List Char :=
  ((l.dropWhile Char.isWhitespace).reverse.dropWhile Char.isWhitespace).reverse

/-- Python `str.strip()` on a `String`. -/
def pystrip (s : String) : String :=
  String.mk (stripChars s.data)

/-- Python `str.lower()` (ASCII letters; all repository data is covered). -/
def pyLower (s : String) : String :=
  String.mk (s.data.map Char.toLower)

/-- Does `pat` occur at the start of `s`? (case-sensitive). -/
def startsWithL : List Char → List Char → Bool
  | [], _ => true
  | _ :: _, [] => false
  | p :: ps, c :: cs => p == c && startsWithL ps cs

/-- Python's `pat in s` substring test. -/
def containsSub (pat : List Char) : List Char → Bool
  | [] => pat.isEmpty
  | c :: rest => startsWithL pat (c :: rest) || containsSub pat rest

/-- Substring test on `String`s, Python `pat in hay`. -/
def strContains (hay pat : String) : Bool :=
  containsSub pat.data hay.data

/-- Python `str.splitlines()` (line boundaries `\n`, `\r\n`, `\r`; the rare
Unicode-only boundaries do not occur in the repository's data). -/
def splitlinesAux (cur : List Char) : List Char → List (List Char)
  | [] => [cur.reverse]
  | '\r' :: '\n' :: rest =>
      cur.reverse :: (if rest.isEmpty then [] else splitlinesAux [] rest)
  | '\n' :: rest =>
      cur.reverse :: (if rest.isEmpty then [] else splitlinesAux [] rest)
  | '\r' :: rest =>
      cur.reverse :: (if rest.isEmpty then [] else splitlinesAux [] rest)
  | c :: rest => splitlinesAux (c :: cur) rest

/-- Python `str.splitlines()`; the empty string yields no lines. -/
def splitlines (s : List Char) : List (List Char) :=
  if s.isEmpty then [] else splitlinesAux [] s

/-- Python `"\n".join(lines)`. -/
def joinNL (ls : List (List Char)) : List Char :=
  List.intercalate ['\n'] ls

-- --------------------------------------------------------------------
-- tabs/labeling_daniel.py : category classification and label codec
-- --------------------------------------------------------------------

/-- `TERNARY_CATEGORIES` from `labeling_daniel.py` (the fixed set of names
with three label states). -/
def TERNARY_CATEGORIES : List String :=
  [ "Data Provenance"
  , "Data Preparation and Processing"
  , "Data Preparation & Processing"
  , "Data Preparation and Processing (alle Verarbeitungsschritte ab Existenz der Rohdaten)"
  , "Data Preparation and Processing (all processing steps after raw data exists)" ]

/-- `_normalize_cat_name`: `(cat or "").strip()`. -/
def normalize_cat_name (cat : String) : String :=
  pystrip cat

/-- `_is_ternary_category`: exact membership in `TERNARY_CATEGORIES`, else a
substring heuristic on the lowercased trimmed name. -/
def is_ternary_category (category_name : String) : Bool :=
  let c := normalize_cat_name category_name
  if TERNARY_CATEGORIES.contains c then true
  else
    let c_low := pyLower c
    if strContains c_low "provenance" then true
    else if strContains c_low "preparation" || strContains c_low "processing" then true
    else false

/-- `_label_options_for_category`. -/
def label_options_for_category (category_name : String) : List String :=
  if is_ternary_category category_name then ["—", "✅", "❓", "❌"]
  else ["—", "✅", "❌"]

/-- A stored label-plan cell as seen by `_format_existing_label_for_ui`:
absent (`None` or NaN), an integer-convertible value, or a value whose
`int(...)` conversion raises. -/
inductive CellVal where
  | absent : CellVal
  | intv : Int → CellVal
  | nonInt : CellVal
deriving DecidableEq, Repr

/-- `_parse_label_choice`: UI choice → stored integer (`none` when unset). -/
def parse_label_choice (category_name choice : String) : Option Int :=
  if choice == "" || (pystrip choice == "" || pystrip choice == "—") then none
  else
    let c := pystrip choice
    if is_ternary_category category_name then
      if c == "✅" then some 2
      else if c == "❓" then some 1
      else if c == "❌" then some 0
      else none
    else
      if c == "✅" then some 1
      else if c == "❌" then some 0
      else none

/-- `_format_existing_label_for_ui`: stored cell → UI default choice. -/
def format_existing_label_for_ui (category_name : String) (existing : CellVal) : String :=
  match existing with
  | .absent => "—"
  | .nonInt => "—"
  | .intv v =>
    if is_ternary_category category_name then
      if v == 2 then "✅"
      else if v == 1 then "❓"
      else if v == 0 then "❌"
      else "—"
    else
      if v == 1 then "✅"
      else if v == 0 then "❌"
      else "—"

/-- The per-cell effect of the save-and-advance block in `render`
(`labeling_daniel.py` lines 807–812): a choice that parses to `None` leaves
the working-copy cell untouched, otherwise the parsed integer is stored. -/
def save_cell (category_name choice : String) (old : CellVal) : CellVal :=
  match parse_label_choice category_name choice with
  | none => old
  | some v => .intv v

-- --------------------------------------------------------------------
-- Claim C3
-- --------------------------------------------------------------------

/-- The classification condition exactly as the claim words it: the trimmed
name is in the fixed ternary-name set, or the lowercased name contains
"provenance", "preparation" or "processing". -/
def claim_ternary_condition (name : String) : Bool :=
  TERNARY_CATEGORIES.contains (pystrip name)
    || strContains (pyLower (pystrip name)) "provenance"
    || strContains (pyLower (pystrip name)) "preparation"
    || strContains (pyLower (pystrip name)) "processing"

theorem is_ternary_eq_claim (name : String) :
    is_ternary_category name = claim_ternary_condition name := by
  unfold is_ternary_category claim_ternary_condition normalize_cat_name
  cases h1 : TERNARY_CATEGORIES.contains (pystrip name) <;>
    cases h2 : strContains (pyLower (pystrip name)) "provenance" <;>
      cases h3 : strContains (pyLower (pystrip name)) "preparation" <;>
        cases h4 : strContains (pyLower (pystrip name)) "processing" <;>
          simp only [h1, h2, h3, h4] <;> simp

/-- Claim C3: a category name satisfying the ternary condition (trimmed name
in the fixed known ternary set, or lowercased name containing "provenance",
"preparation" or "processing") gets a four-member label-options list
including the unclear option `❓`; every other name gets a three-member list
without `❓`. -/
theorem ternary_classification_options (name : String) :
    (claim_ternary_condition name = true →
      label_options_for_category name = ["—", "✅", "❓", "❌"] ∧
      (label_options_for_category name).length = 4 ∧
      "❓" ∈ label_options_for_category name) ∧
    (claim_ternary_condition name = false →
      label_options_for_category name = ["—", "✅", "❌"] ∧
      (label_options_for_category name).length = 3 ∧
      "❓" ∉ label_options_for_category name) := by
  constructor
  · intro h
    have ht : is_ternary_category name = true := by
      rw [is_ternary_eq_claim]; exact h
    simp [label_options_for_category, ht]
  · intro h
    have ht : is_ternary_category name = false := by
      rw [is_ternary_eq_claim]; exact h
    simp [label_options_for_category, ht]

/-- Witness for C3 at the concrete names "Data Provenance" (ternary) and
"Bias and Fairness Disclosure" (binary). -/
theorem ternary_classification_options_witness :
    label_options_for_category "Data Provenance" = ["—", "✅", "❓", "❌"] ∧
    label_options_for_category "Bias and Fairness Disclosure" = ["—", "✅", "❌"] :=
  ⟨((ternary_classification_options "Data Provenance").1 (by decide)).1,
   ((ternary_classification_options "Bias and Fairness Disclosure").2 (by decide)).1⟩

-- --------------------------------------------------------------------
-- Claim C2: label encode/decode round-trip
-- --------------------------------------------------------------------

/-- Claim C2: for a ternary category, encoding `✅`/`❓`/`❌` yields 2/1/0
and decoding those integers yields the original choice; for a binary
category, encoding `✅`/`❌` yields 1/0 and decoding is likewise inverse; an
absent, NaN or non-integer cell decodes to the unset choice `—`; and the
unset choice encodes to no stored value, so saving with a category left
unset leaves the cell unchanged. -/
theorem label_encode_decode_roundtrip (cat : String) (old : CellVal) :
    (is_ternary_category cat = true →
      parse_label_choice cat "✅" = some 2 ∧
      parse_label_choice cat "❓" = some 1 ∧
      parse_label_choice cat "❌" = some 0 ∧
      format_existing_label_for_ui cat (.intv 2) = "✅" ∧
      format_existing_label_for_ui cat (.intv 1) = "❓" ∧
      format_existing_label_for_ui cat (.intv 0) = "❌") ∧
    (is_ternary_category cat = false →
      parse_label_choice cat "✅" = some 1 ∧
      parse_label_choice cat "❌" = some 0 ∧
      format_existing_label_for_ui cat (.intv 1) = "✅" ∧
      format_existing_label_for_ui cat (.intv 0) = "❌") ∧
    format_existing_label_for_ui cat .absent = "—" ∧
    format_existing_label_for_ui cat .nonInt = "—" ∧
    parse_label_choice cat "—" = none ∧
    parse_label_choice cat "" = none ∧
    save_cell cat "—" old = old ∧
    save_cell cat "" old = old := by
  refine ⟨fun h => ⟨?_, ?_, ?_, ?_, ?_, ?_⟩, fun h => ⟨?_, ?_, ?_, ?_⟩,
    rfl, rfl, rfl, rfl, rfl, rfl⟩ <;>
    simp only [parse_label_choice, format_existing_label_for_ui, h] <;> decide

/-- Witness for C2 at the ternary name "Data Provenance" and the binary name
"Obtained From". -/
theorem label_encode_decode_roundtrip_witness :
    parse_label_choice "Data Provenance" "❓" = some 1 ∧
    format_existing_label_for_ui "Data Provenance" (.intv 1) = "❓" ∧
    parse_label_choice "Obtained From" "✅" = some 1 ∧
    format_existing_label_for_ui "Obtained From" (.intv 0) = "❌" ∧
    save_cell "Obtained From" "—" (.intv 1) = .intv 1 :=
  ⟨((label_encode_decode_roundtrip "Data Provenance" .absent).1 (by decide)).2.1,
   ((label_encode_decode_roundtrip "Data Provenance" .absent).1 (by decide)).2.2.2.2.1,
   ((label_encode_decode_roundtrip "Obtained From" .absent).2.1 (by decide)).1,
   ((label_encode_decode_roundtrip "Obtained From" .absent).2.1 (by decide)).2.2.2,
   (label_encode_decode_roundtrip "Obtained From" (.intv 1)).2.2.2.2.2.2.1⟩

-- --------------------------------------------------------------------
-- Claim C10: out-of-range stored labels decode to unset
-- --------------------------------------------------------------------

/-- Claim C10: for a binary category, a stored integer outside {0, 1}
decodes to the unset choice; for a ternary category, an integer outside
{0, 1, 2} decodes to unset; a non-integer-convertible value decodes to
unset rather than raising. -/
theorem out_of_range_labels_decode_unset (cat : String) (n : Int) :
    (is_ternary_category cat = false → n ≠ 0 → n ≠ 1 →
      format_existing_label_for_ui cat (.intv n) = "—") ∧
    (is_ternary_category cat = true → n ≠ 0 → n ≠ 1 → n ≠ 2 →
      format_existing_label_for_ui cat (.intv n) = "—") ∧
    format_existing_label_for_ui cat .nonInt = "—" := by
  refine ⟨fun h h0 h1 => ?_, fun h h0 h1 h2 => ?_, by simp [format_existing_label_for_ui]⟩ <;>
    simp [format_existing_label_for_ui, h, h0, h1, *]

/-- Witness for C10: the binary category "Bias and Fairness Disclosure" with
the stored value 2 (as a ternary scale would store) decodes to unset, and a
ternary category with the value 5 decodes to unset. -/
theorem out_of_range_labels_decode_unset_witness :
    format_existing_label_for_ui "Bias and Fairness Disclosure" (.intv 2) = "—" ∧
    format_existing_label_for_ui "Data Provenance" (.intv 5) = "—" :=
  ⟨(out_of_range_labels_decode_unset "Bias and Fairness Disclosure" 2).1
      (by decide) (by decide) (by decide),
   (out_of_range_labels_decode_unset "Data Provenance" 5).2.1
      (by decide) (by decide) (by decide) (by decide)⟩

-- --------------------------------------------------------------------
-- tabs/labeling_daniel.py : `_strip_frontmatter`  (Claim C5)
-- --------------------------------------------------------------------

/-- `_strip_frontmatter`: drop an optional YAML metadata header delimited by
lines stripping to `---`; when the opening delimiter has no closing line the
text is returned unmodified.  The kept region is the list of lines after the
closing delimiter joined with `\n`. -/
def strip_frontmatter (text : List Char) : List Char :=
  let lines := splitlines text
  if lines.isEmpty then text
  else
    match lines.findIdx? (fun l => !(stripChars l).isEmpty) with
    | none => text
    | some i =>
      if stripChars (lines.getD i []) == "---".data then
        match (lines.drop (i + 1)).findIdx? (fun l => stripChars l == "---".data) with
        | none => text
        | some k => joinNL (lines.drop (i + 1 + k + 1))
      else text

/-- Counterexample to claim C5 as stated: for the text
`"---\nx\n---\nbody\n"` the content after the closing delimiter line is
`"body\n"`, but stripping returns `"body"` — the trailing newline is not
preserved byte-for-byte, because the kept lines are rejoined with `\n`. -/
theorem strip_frontmatter_trailing_newline_counterexample :
    strip_frontmatter ("---\nx\n---\nbody\n".data) = "body".data ∧
    strip_frontmatter ("---\nx\n---\nbody\n".data) ≠ "body\n".data := by
  decide

/-- Claim C5 (amended): a text whose first non-blank line strips to `---`
but which has no later line stripping to `---` is returned completely
unmodified; with a proper open/close pair, the result is exactly the lines
after the closing delimiter line joined with a single `\n` — line contents
are preserved in order, but original line separators are normalized and a
trailing line terminator is not reproduced. -/
theorem strip_frontmatter_amended (text : List Char) (i : Nat)
    (h1 : (splitlines text).findIdx? (fun l => !(stripChars l).isEmpty) = some i)
    (h2 : stripChars ((splitlines text).getD i []) = "---".data) :
    (((splitlines text).drop (i + 1)).findIdx? (fun l => stripChars l == "---".data) = none →
      strip_frontmatter text = text) ∧
    (∀ k, ((splitlines text).drop (i + 1)).findIdx? (fun l => stripChars l == "---".data) = some k →
      strip_frontmatter text = joinNL ((splitlines text).drop (i + 1 + k + 1))) := by
  have hne : (splitlines text).isEmpty = false := by
    cases hl : splitlines text with
    | nil => rw [hl] at h1; simp [List.findIdx?] at h1
    | cons a as => simp
  have h2b : (stripChars ((splitlines text).getD i []) == "---".data) = true :=
    beq_iff_eq.mpr h2
  constructor
  · intro h3
    simp only [strip_frontmatter, hne, Bool.false_eq_true, if_false, h1, h2b, if_true, h3]
  · intro k h3
    simp only [strip_frontmatter, hne, Bool.false_eq_true, if_false, h1, h2b, if_true, h3]

/-- Witness for the amended C5 at two concrete inputs: an unterminated
header is left unmodified, and a proper pair keeps exactly the joined lines
after the closing delimiter. -/
theorem strip_frontmatter_amended_witness :
    strip_frontmatter ("---\nabc".data) = "---\nabc".data ∧
    strip_frontmatter ("---\na\n---\nhello".data) =
      joinNL ((splitlines ("---\na\n---\nhello".data)).drop (0 + 1 + 1 + 1)) :=
  ⟨(strip_frontmatter_amended ("---\nabc".data) 0 (by decide) (by decide)).1 (by decide),
   (strip_frontmatter_amended ("---\na\n---\nhello".data) 0 (by decide) (by decide)).2 1 (by decide)⟩

-- --------------------------------------------------------------------
-- tabs/ai_act_mapping.py : one-row-per-category reduction  (Claim C6)
-- --------------------------------------------------------------------

/-- One row of the `ai_act_mapping.csv` table. -/
structure MappingRow where
  pillar : String
  category : String
  detail : String
deriving DecidableEq, Repr

/-- The fixed ordered category set `wanted_cats` of `load_mapping_df` /
`save_mapping_df`. -/
def wanted_cats : List String :=
  [ "Data Provenance"
  , "Data Composition"
  , "Obtained From"
  , "Data Preparation and Processing"
  , "Bias and Fairness Disclosure"
  , "Annahmen über den Datensatz" ]

def emptyMappingRow : MappingRow := ⟨"", "", ""⟩

/-- The per-category pick of `load_mapping_df` (lines 130–145): among the
rows of one category, the first row with non-empty `detail` wins, otherwise
the first row overall; the picked fields are re-stripped.  (The loader only
reaches this step when every wanted category is present, so the fallback
row `emptyMappingRow` of the embedding is never picked in that regime.) -/
def reduce_one (rows : List MappingRow) (cat : String) : MappingRow :=
  let sub := rows.filter (fun r => r.category == cat)
  let sub_non_empty := sub.filter (fun r => !r.detail.isEmpty)
  let pick := if !sub_non_empty.isEmpty then sub_non_empty.headD emptyMappingRow
              else sub.headD emptyMappingRow
  { pillar := pystrip pick.pillar, category := cat, detail := pystrip pick.detail }

/-- The reduction of `load_mapping_df`: exactly one row per wanted category,
in the fixed order. -/
def reduce_mapping_rows (rows : List MappingRow) : List MappingRow :=
  wanted_cats.map (reduce_one rows)

theorem filter_map_category (f : String → MappingRow) (cats : List String) (target : String)
    (hf : ∀ c ∈ cats, (f c).category = c) :
    (cats.map f).filter (fun r => r.category == target)
      = (cats.filter (fun c => c == target)).map f := by
  induction cats with
  | nil => rfl
  | cons c cs ih =>
    simp only [List.map_cons, List.filter_cons]
    rw [hf c (List.mem_cons_self c cs)]
    cases h : (c == target)
    · simpa using ih (fun x hx => hf x (List.mem_cons_of_mem c hx))
    · simpa using ih (fun x hx => hf x (List.mem_cons_of_mem c hx))

theorem wanted_filter_self (cat : String) (h : cat ∈ wanted_cats) :
    wanted_cats.filter (fun c => c == cat) = [cat] := by
  fin_cases h <;> decide

theorem reduce_one_of_single (rows : List MappingRow) (cat : String) (r0 : MappingRow)
    (h : rows.filter (fun r => r.category == cat) = [r0]) :
    reduce_one rows cat = ⟨pystrip r0.pillar, cat, pystrip r0.detail⟩ := by
  simp only [reduce_one, h]
  cases hd : (!r0.detail.isEmpty) <;> simp [List.filter_cons, hd]

/-- Claim C6: (i) when, for a wanted category, exactly one duplicate row has
a non-empty `detail` (already-trimmed fields), the reduction selects exactly
that row for the category, whatever the order and multiplicity of the other
rows; (ii) reducing a table that already has exactly one (trimmed) row per
wanted category, in the fixed order, returns it unchanged — the reduction is
a fixed point. -/
theorem mapping_reduction_selection_idempotent :
    (∀ (rows : List MappingRow) (cat : String) (r : MappingRow),
      cat ∈ wanted_cats →
      rows.filter (fun x => x.category == cat && !x.detail.isEmpty) = [r] →
      pystrip r.pillar = r.pillar →
      pystrip r.detail = r.detail →
      (reduce_mapping_rows rows).filter (fun x => x.category == cat) = [r]) ∧
    (∀ f : String → MappingRow,
      (∀ c ∈ wanted_cats, (f c).category = c ∧ pystrip (f c).pillar = (f c).pillar ∧
        pystrip (f c).detail = (f c).detail) →
      reduce_mapping_rows (wanted_cats.map f) = wanted_cats.map f) := by
  constructor
  · intro rows cat r hcat hfil hp hd
    have hr_mem : r ∈ rows.filter (fun x => x.category == cat && !x.detail.isEmpty) := by
      rw [hfil]; exact List.mem_cons_self r []
    have hr_pred := (List.mem_filter.mp hr_mem).2
    have hr_cat : r.category = cat := by
      have := (Bool.and_eq_true _ _).mp hr_pred |>.1
      exact eq_of_beq this
    have hmap : (reduce_mapping_rows rows).filter (fun x => x.category == cat)
        = [reduce_one rows cat] := by
      rw [reduce_mapping_rows,
        filter_map_category (reduce_one rows) wanted_cats cat (fun c _ => rfl),
        wanted_filter_self cat hcat, List.map_cons, List.map_nil]
    rw [hmap]
    have hsubne : (rows.filter (fun x => x.category == cat)).filter (fun x => !x.detail.isEmpty)
        = [r] := by
      rw [List.filter_filter]
      have hcomm : (fun a : MappingRow => !a.detail.isEmpty && (a.category == cat))
          = (fun a : MappingRow => (a.category == cat) && !a.detail.isEmpty) := by
        funext a; exact Bool.and_comm _ _
      rw [hcomm]; exact hfil
    have hne : (!((rows.filter (fun x => x.category == cat)).filter
        (fun x => !x.detail.isEmpty)).isEmpty) = true := by
      rw [hsubne]; rfl
    have : reduce_one rows cat = ⟨pystrip r.pillar, cat, pystrip r.detail⟩ := by
      simp only [reduce_one, hne, if_true, hsubne, List.headD_cons]
      simp
    rw [this, hp, hd]
    cases r
    simp_all
  · intro f hf
    rw [reduce_mapping_rows]
    apply List.map_congr_left
    intro c hc
    have hsub : ((wanted_cats.map f).filter (fun r => r.category == c)) = [f c] := by
      rw [filter_map_category f wanted_cats c (fun x hx => (hf x hx).1),
        wanted_filter_self c hc, List.map_cons, List.map_nil]
    rw [reduce_one_of_single (wanted_cats.map f) c (f c) hsub,
      (hf c hc).2.1, (hf c hc).2.2]
    have := (hf c hc).1
    cases hfc : f c
    simp_all

/-- Witness for C6: a concrete four-row table with duplicates for
"Data Provenance" (the non-empty-detail duplicate listed second) reduces to
that duplicate, and a concrete already-reduced table is a fixed point. -/
theorem mapping_reduction_selection_idempotent_witness :
    (reduce_mapping_rows
        [ ⟨"Art. 10", "Data Provenance", ""⟩
        , ⟨"Art. 10(2)(b)", "Data Provenance", "origin"⟩
        , ⟨"Art. 10", "Data Provenance", ""⟩
        , ⟨"x", "Data Composition", "c"⟩ ]).filter
      (fun x => x.category == "Data Provenance")
      = [⟨"Art. 10(2)(b)", "Data Provenance", "origin"⟩] ∧
    reduce_mapping_rows (wanted_cats.map (fun c => ⟨"p", c, "d"⟩))
      = wanted_cats.map (fun c => ⟨"p", c, "d"⟩) :=
  ⟨mapping_reduction_selection_idempotent.1
      [ ⟨"Art. 10", "Data Provenance", ""⟩
      , ⟨"Art. 10(2)(b)", "Data Provenance", "origin"⟩
      , ⟨"Art. 10", "Data Provenance", ""⟩
      , ⟨"x", "Data Composition", "c"⟩ ]
      "Data Provenance" ⟨"Art. 10(2)(b)", "Data Provenance", "origin"⟩
      (by decide) (by decide) (by decide) (by decide),
   mapping_reduction_selection_idempotent.2 (fun c => ⟨"p", c, "d"⟩)
      (by
        intro c hc
        refine ⟨rfl, ?_, ?_⟩
        · show pystrip "p" = "p"; decide
        · show pystrip "d" = "d"; decide)⟩

-- --------------------------------------------------------------------
-- tabs/categories.py : registry update (rename) branch  (Claim C7)
-- --------------------------------------------------------------------

/-- One `categories.json` record (all fields except the name key). -/
structure CatRecord where
  label_unit : String
  description : String
  ds_pos : List String
  ds_neg : List String
  sent_pos : List String
  sent_neg : List String
deriving DecidableEq, Repr

/-- The registry: an insertion-ordered mapping from category name to record,
modelling the Python dict loaded from `categories.json`. -/
abbrev Registry := List (String × CatRecord)

/-- Python `reg[k]` lookup (dicts have unique keys, so the first match is
the match). -/
def dictLookup (reg : Registry) (k : String) : Option CatRecord :=
  (List.find? (fun p => p.1 == k) reg).map (fun p => p.2)

/-- Python `reg.pop(k, None)`: remove the key. -/
def dictPop (reg : Registry) (k : String) : Registry :=
  List.filter (fun p => !(p.1 == k)) reg

/-- Python `reg[k] = v`: replace in place when the key exists, else append
(dicts preserve insertion order). -/
def dictInsert (reg : Registry) (k : String) (v : CatRecord) : Registry :=
  if List.any reg (fun p => p.1 == k) then
    List.map (fun p => if p.1 == k then (k, v) else p) reg
  else reg ++ [(k, v)]

/-- The edited form fields of the update branch of `categories.py`. -/
structure EditInputs where
  name : String
  label_unit : String
  description : String
  ds_pos : String
  ds_neg : String
  sent_pos : String
  sent_neg : String

/-- `_multiline_to_list`: non-blank trimmed lines of a multiline text. -/
def multiline_to_list (text : String) : List String :=
  if text == "" then []
  else (splitlines text.data).filterMap (fun l =>
    let s := stripChars l
    if s.isEmpty then none else some (String.mk s))

/-- The payload built by the update branch (lines 301–316). -/
def build_payload (inp : EditInputs) : CatRecord :=
  { label_unit := inp.label_unit
  , description := pystrip inp.description
  , ds_pos := multiline_to_list inp.ds_pos
  , ds_neg := multiline_to_list inp.ds_neg
  , sent_pos := multiline_to_list inp.sent_pos
  , sent_neg := multiline_to_list inp.sent_neg }

/-- The update branch of `categories.py` `render` (lines 288–325): returns
whether an error was surfaced (in which case nothing is persisted) together
with the registry that is persisted, or kept unchanged on error. -/
def update_category (reg : Registry) (selected : String) (inp : EditInputs) :
    Bool × Registry :=
  let new_name := pystrip inp.name
  if new_name == "" then (true, reg)
  else if new_name != selected && (dictLookup reg new_name).isSome then (true, reg)
  else
    let payload := build_payload inp
    let reg1 := if new_name != selected then dictPop reg selected else reg
    (false, dictInsert reg1 new_name payload)

theorem dictLookup_eq_none_iff (reg : Registry) (k : String) :
    dictLookup reg k = none ↔ List.find? (fun p => p.1 == k) reg = none := by
  cases hf : List.find? (fun p => p.1 == k) reg <;> simp [dictLookup, hf]

theorem dictLookup_pop_self (reg : Registry) (k : String) :
    dictLookup (dictPop reg k) k = none := by
  rw [dictLookup_eq_none_iff, List.find?_eq_none]
  intro x hx
  simpa using (List.mem_filter.mp hx).2

theorem dictLookup_pop_none (reg : Registry) (k j : String)
    (h : dictLookup reg j = none) : dictLookup (dictPop reg k) j = none := by
  rw [dictLookup_eq_none_iff, List.find?_eq_none]
  rw [dictLookup_eq_none_iff, List.find?_eq_none] at h
  intro x hx
  exact h x (List.mem_filter.mp hx).1

theorem dictInsert_of_absent (reg : Registry) (k : String) (v : CatRecord)
    (h : dictLookup reg k = none) : dictInsert reg k v = reg ++ [(k, v)] := by
  have hany : List.any reg (fun p => p.1 == k) = false := by
    cases hA : List.any reg (fun p => p.1 == k) with
    | false => rfl
    | true =>
      obtain ⟨p, hp, hpk⟩ := List.any_eq_true.mp hA
      rw [dictLookup_eq_none_iff, List.find?_eq_none] at h
      exact absurd hpk (by simpa using h p hp)
  simp [dictInsert, hany]

theorem dictLookup_insert_fresh (reg : Registry) (k : String) (v : CatRecord)
    (h : dictLookup reg k = none) : dictLookup (dictInsert reg k v) k = some v := by
  rw [dictInsert_of_absent reg k v h, dictLookup, List.find?_append]
  rw [dictLookup_eq_none_iff] at h
  rw [h]
  simp [List.find?]

theorem find?_map_replace (k j : String) (v : CatRecord) (hj : j ≠ k)
    (l : List (String × CatRecord)) :
    List.find? (fun p => p.1 == j) (l.map (fun p => if p.1 == k then (k, v) else p))
      = List.find? (fun p => p.1 == j) l := by
  induction l with
  | nil => rfl
  | cons p ps ih =>
    simp only [List.map_cons]
    by_cases hpk : (p.1 == k) = true
    · have hp1 : p.1 = k := eq_of_beq hpk
      have hkj : (k == j) = false := by simpa using (Ne.symm hj)
      rw [if_pos hpk]
      simp only [List.find?_cons]
      simp only [hp1, hkj]
      exact ih
    · rw [if_neg hpk]
      simp only [List.find?_cons]
      cases hpj : (p.1 == j)
      · simp only [hpj]; exact ih
      · simp only [hpj]

theorem dictLookup_insert_other (reg : Registry) (k j : String) (v : CatRecord)
    (hj : j ≠ k) : dictLookup (dictInsert reg k v) j = dictLookup reg j := by
  by_cases hk : dictLookup reg k = none
  · rw [dictInsert_of_absent reg k v hk, dictLookup, List.find?_append, dictLookup]
    cases hf : List.find? (fun p => p.1 == j) reg with
    | none =>
      have hkj : (k == j) = false := by simpa using (Ne.symm hj)
      simp [List.find?_cons, hkj]
    | some p => simp
  · have hany : List.any reg (fun p => p.1 == k) = true := by
      cases hA : List.any reg (fun p => p.1 == k) with
      | true => rfl
      | false =>
        exfalso
        apply hk
        rw [dictLookup_eq_none_iff, List.find?_eq_none]
        intro x hx
        simpa using List.any_eq_false.mp hA x hx
    rw [dictInsert]
    simp only [hany, if_true]
    rw [dictLookup, dictLookup, find?_map_replace k j v hj reg]

/-- Claim C7: renaming an existing category to a new, non-blank,
non-colliding name removes the old key and maps the new key to the record
built from the edited inputs, with no error; attempting to rename to a name
already held by a different category surfaces an error and leaves the
registry completely unchanged. -/
theorem category_rename_semantics (reg : Registry) (selected : String) (inp : EditInputs)
    (hsel : (dictLookup reg selected).isSome) :
    (pystrip inp.name ≠ "" → pystrip inp.name ≠ selected →
      dictLookup reg (pystrip inp.name) = none →
      (update_category reg selected inp).1 = false ∧
      dictLookup (update_category reg selected inp).2 selected = none ∧
      dictLookup (update_category reg selected inp).2 (pystrip inp.name)
        = some (build_payload inp)) ∧
    (pystrip inp.name ≠ selected → (dictLookup reg (pystrip inp.name)).isSome →
      update_category reg selected inp = (true, reg)) := by
  constructor
  · intro hnb hns hfree
    have hb : (pystrip inp.name == "") = false := by simpa using hnb
    have hneq : (pystrip inp.name != selected) = true := by simpa using hns
    have hcoll : ((pystrip inp.name != selected)
        && (dictLookup reg (pystrip inp.name)).isSome) = false := by
      rw [hfree]; simp
    have hres : update_category reg selected inp
        = (false, dictInsert (dictPop reg selected) (pystrip inp.name) (build_payload inp)) := by
      simp only [update_category, hb, Bool.false_eq_true, if_false]
      rw [hcoll]
      simp only [Bool.false_eq_true, if_false, hneq, if_true]
    have hfree1 : dictLookup (dictPop reg selected) (pystrip inp.name) = none :=
      dictLookup_pop_none reg selected (pystrip inp.name) hfree
    refine ⟨by rw [hres], ?_, ?_⟩
    · rw [hres]
      rw [dictLookup_insert_other _ _ _ _ (Ne.symm hns)]
      exact dictLookup_pop_self reg selected
    · rw [hres]
      exact dictLookup_insert_fresh _ _ _ hfree1
  · intro hns hcoll
    cases hb : (pystrip inp.name == "") with
    | true => simp only [update_category, hb, if_true]
    | false =>
      have hneq : (pystrip inp.name != selected) = true := by simpa using hns
      have hcond : ((pystrip inp.name != selected)
          && (dictLookup reg (pystrip inp.name)).isSome) = true := by
        rw [hneq, hcoll]; rfl
      simp only [update_category, hb, Bool.false_eq_true, if_false, hcond, if_true]

/-- Witness for C7 on a concrete two-category registry: renaming succeeds to
a fresh name (old key gone, new key carries the payload built from the
edited fields), and renaming onto the other existing category errors and
keeps the registry unchanged. -/
theorem category_rename_semantics_witness :
    (update_category
        [("A", ⟨"sentence", "", [], [], [], []⟩), ("B", ⟨"sentence", "", [], [], [], []⟩)]
        "A" ⟨"C", "document", " d ", "", "", "k1\n\nk2", ""⟩).1 = false ∧
    dictLookup (update_category
        [("A", ⟨"sentence", "", [], [], [], []⟩), ("B", ⟨"sentence", "", [], [], [], []⟩)]
        "A" ⟨"C", "document", " d ", "", "", "k1\n\nk2", ""⟩).2 "A" = none ∧
    dictLookup (update_category
        [("A", ⟨"sentence", "", [], [], [], []⟩), ("B", ⟨"sentence", "", [], [], [], []⟩)]
        "A" ⟨"C", "document", " d ", "", "", "k1\n\nk2", ""⟩).2 "C"
      = some ⟨"document", "d", [], [], ["k1", "k2"], []⟩ ∧
    update_category
        [("A", ⟨"sentence", "", [], [], [], []⟩), ("B", ⟨"sentence", "", [], [], [], []⟩)]
        "A" ⟨"B", "sentence", "", "", "", "", ""⟩
      = (true, [("A", ⟨"sentence", "", [], [], [], []⟩), ("B", ⟨"sentence", "", [], [], [], []⟩)]) := by
  have h1 := category_rename_semantics
    [("A", ⟨"sentence", "", [], [], [], []⟩), ("B", ⟨"sentence", "", [], [], [], []⟩)]
    "A" ⟨"C", "document", " d ", "", "", "k1\n\nk2", ""⟩ (by decide)
  have h2 := category_rename_semantics
    [("A", ⟨"sentence", "", [], [], [], []⟩), ("B", ⟨"sentence", "", [], [], [], []⟩)]
    "A" ⟨"B", "sentence", "", "", "", "", ""⟩ (by decide)
  obtain ⟨ha, hb, hc⟩ := h1.1 (by decide) (by decide) (by decide)
  have hnm : pystrip (EditInputs.name ⟨"C", "document", " d ", "", "", "k1\n\nk2", ""⟩) = "C" := by
    decide
  rw [hnm] at hc
  refine ⟨ha, hb, ?_, h2.2 (by decide) (by decide)⟩
  rw [hc]
  decide

-- --------------------------------------------------------------------
-- tabs/labeling_daniel.py : progress and next-document selection (Claim C8)
-- --------------------------------------------------------------------

/-- A label-plan cell as seen by `_compute_progress`: absent (NaN), an
integer, or a string. -/
inductive PCell where
  | absent : PCell
  | intv : Int → PCell
  | strv : String → PCell
deriving DecidableEq, Repr

/-- One row of the label plan, as used by progress computation and
selection: cells of the annotator's label columns are looked up by column
name. -/
structure PlanRow where
  doc_index : Int
  doc_id : String
  cell : String → PCell

/-- The per-column test of `_compute_progress`'s inner loop: a cell counts
as a label when it is not NaN and not a blank (all-whitespace) string. -/
def cell_counts_as_label : PCell → Bool
  | .absent => false
  | .intv _ => true
  | .strv s => !(stripChars s.data).isEmpty

/-- A row is done when its `doc_id` is in the skip list or some annotator
column holds a counting value (`_compute_progress`, lines 533–550). -/
def row_done (daniel_cols skipped : List String) (r : PlanRow) : Bool :=
  skipped.contains r.doc_id || daniel_cols.any (fun c => cell_counts_as_label (r.cell c))

/-- The `done_mask` of `_compute_progress`. -/
def compute_done_mask (rows : List PlanRow) (daniel_cols skipped : List String) : List Bool :=
  rows.map (row_done daniel_cols skipped)

/-- `_find_next_doc_index`: the `doc_index` of the first row (in row order)
whose mask entry is not done, `-1` when every row is done. -/
def find_next_doc_index : List PlanRow → List Bool → Int
  | r :: rs, b :: bs => if b then find_next_doc_index rs bs else r.doc_index
  | _, _ => -1

/-- The current-document selection of `render` (lines 675–689). -/
inductive Selection where
  | completion : Selection
  | doc : Int → Selection
deriving DecidableEq, Repr

/-- The selection step of `render`: a valid manual jump target wins,
otherwise the next-undone computation; `-1` means every row is done and the
completion message is shown. -/
def current_selection (rows : List PlanRow) (daniel_cols skipped : List String)
    (manual : Option Int) : Selection :=
  let mask := compute_done_mask rows daniel_cols skipped
  let current :=
    match manual with
    | some m => if rows.any (fun r => r.doc_index == m) then m
                else find_next_doc_index rows mask
    | none => find_next_doc_index rows mask
  if current = -1 then .completion else .doc current

theorem find_next_all_done (daniel_cols skipped : List String) (rows : List PlanRow)
    (h : ∀ r ∈ rows, row_done daniel_cols skipped r = true) :
    find_next_doc_index rows (compute_done_mask rows daniel_cols skipped) = -1 := by
  induction rows with
  | nil => rfl
  | cons r rs ih =>
    have hr : row_done daniel_cols skipped r = true := h r (List.mem_cons_self r rs)
    simp only [compute_done_mask, List.map_cons, find_next_doc_index, hr, if_true]
    exact ih (fun x hx => h x (List.mem_cons_of_mem r hx))

theorem find_next_first_undone (daniel_cols skipped : List String) (rows : List PlanRow)
    (hsorted : List.Pairwise (fun a b => a.doc_index < b.doc_index) rows)
    (r0 : PlanRow) (hr0 : r0 ∈ rows) (hundone : row_done daniel_cols skipped r0 = false) :
    ∃ rsel, rsel ∈ rows ∧ row_done daniel_cols skipped rsel = false ∧
      find_next_doc_index rows (compute_done_mask rows daniel_cols skipped) = rsel.doc_index ∧
      ∀ r1 ∈ rows, row_done daniel_cols skipped r1 = false → rsel.doc_index ≤ r1.doc_index := by
  induction rows with
  | nil => cases hr0
  | cons r rs ih =>
    cases hd : row_done daniel_cols skipped r with
    | false =>
      refine ⟨r, List.mem_cons_self r rs, hd, ?_, ?_⟩
      · simp only [compute_done_mask, List.map_cons, find_next_doc_index, hd,
          Bool.false_eq_true, if_false]
      · intro r1 hr1 _
        rcases List.mem_cons.mp hr1 with h1 | h1
        · rw [h1]
        · exact le_of_lt ((List.pairwise_cons.mp hsorted).1 r1 h1)
    | true =>
      have hr0rs : r0 ∈ rs := by
        rcases List.mem_cons.mp hr0 with h1 | h1
        · rw [h1] at hundone; rw [hundone] at hd; cases hd
        · exact h1
      obtain ⟨rsel, hmem, hun, hfind, hmin⟩ :=
        ih (List.pairwise_cons.mp hsorted).2 hr0rs
      refine ⟨rsel, List.mem_cons_of_mem r hmem, hun, ?_, ?_⟩
      · simp only [compute_done_mask, List.map_cons, find_next_doc_index, hd, if_true]
        exact hfind
      · intro r1 hr1 hun1
        rcases List.mem_cons.mp hr1 with h1 | h1
        · rw [h1] at hun1; rw [hun1] at hd; cases hd
        · exact hmin r1 h1 hun1

/-- Claim C8: with no manual jump active, on a plan whose rows are ordered
by strictly increasing non-negative `doc_index`, if every row is done (its
`doc_id` is skipped or some annotator column holds a counting value) the
selection reports completion; otherwise the selection presents the
not-yet-done row that is first in `doc_index` order. -/
theorem next_undone_selection (rows : List PlanRow) (daniel_cols skipped : List String)
    (hsorted : List.Pairwise (fun a b => a.doc_index < b.doc_index) rows)
    (hnonneg : ∀ r ∈ rows, 0 ≤ r.doc_index) :
    ((∀ r ∈ rows, row_done daniel_cols skipped r = true) →
      current_selection rows daniel_cols skipped none = .completion) ∧
    (∀ r0 ∈ rows, row_done daniel_cols skipped r0 = false →
      ∃ rsel, rsel ∈ rows ∧ row_done daniel_cols skipped rsel = false ∧
        current_selection rows daniel_cols skipped none = .doc rsel.doc_index ∧
        ∀ r1 ∈ rows, row_done daniel_cols skipped r1 = false →
          rsel.doc_index ≤ r1.doc_index) := by
  constructor
  · intro h
    simp [current_selection, find_next_all_done daniel_cols skipped rows h]
  · intro r0 hr0 hundone
    obtain ⟨rsel, hmem, hun, hfind, hmin⟩ :=
      find_next_first_undone daniel_cols skipped rows hsorted r0 hr0 hundone
    refine ⟨rsel, hmem, hun, ?_, hmin⟩
    rw [current_selection]
    simp only [hfind]
    have : ¬ (rsel.doc_index = -1) := by
      have := hnonneg rsel hmem
      omega
    rw [if_neg this]

/-- Witness for C8 on a concrete two-row plan where row 0 is done via the
skip list and row 1 is undone: the selection presents doc_index 1; and on a
plan where both rows are done the selection reports completion. -/
theorem next_undone_selection_witness :
    (current_selection
        [ ⟨0, "d0", fun _ => .absent⟩, ⟨1, "d1", fun _ => .absent⟩ ]
        ["Daniel__A"] ["d0"] none = .completion → False) ∧
    (∃ rsel, rsel ∈ [ (⟨0, "d0", fun _ => .absent⟩ : PlanRow), ⟨1, "d1", fun _ => .absent⟩ ] ∧
      row_done ["Daniel__A"] ["d0"] rsel = false ∧
      current_selection [ ⟨0, "d0", fun _ => .absent⟩, ⟨1, "d1", fun _ => .absent⟩ ]
        ["Daniel__A"] ["d0"] none = .doc rsel.doc_index ∧
      ∀ r1 ∈ [ (⟨0, "d0", fun _ => .absent⟩ : PlanRow), ⟨1, "d1", fun _ => .absent⟩ ],
        row_done ["Daniel__A"] ["d0"] r1 = false → rsel.doc_index ≤ r1.doc_index) ∧
    current_selection [ ⟨0, "d0", fun _ => .intv 1⟩ ] ["Daniel__A"] ["x"] none = .completion := by
  have hsorted : List.Pairwise (fun a b : PlanRow => a.doc_index < b.doc_index)
      [ (⟨0, "d0", fun _ => .absent⟩ : PlanRow), ⟨1, "d1", fun _ => .absent⟩ ] := by
    simp [List.pairwise_cons]
  have hsorted1 : List.Pairwise (fun a b : PlanRow => a.doc_index < b.doc_index)
      [ (⟨0, "d0", fun _ => .intv 1⟩ : PlanRow) ] := by
    simp
  have h := next_undone_selection
      [ ⟨0, "d0", fun _ => .absent⟩, ⟨1, "d1", fun _ => .absent⟩ ]
      ["Daniel__A"] ["d0"] hsorted (by decide)
  have h1 := next_undone_selection [ ⟨0, "d0", fun _ => .intv 1⟩ ] ["Daniel__A"] ["x"] hsorted1
      (by decide)
  refine ⟨?_, ?_, ?_⟩
  · obtain ⟨rsel, hmem, hun, hsel2, hmin⟩ :=
      h.2 ⟨1, "d1", fun _ => .absent⟩ (List.mem_cons_of_mem _ (List.mem_cons_self _ _))
        (by decide)
    intro hcompl
    rw [hsel2] at hcompl
    cases hcompl
  · exact h.2 ⟨1, "d1", fun _ => .absent⟩ (List.mem_cons_of_mem _ (List.mem_cons_self _ _))
      (by decide)
  · exact h1.1 (by decide)

-- --------------------------------------------------------------------
-- tabs/labeling_daniel.py : targeted-merge upload  (Claim C1)
-- --------------------------------------------------------------------

/-- One row of a label-plan table in the upload step: the `doc_id` join key
plus the remaining cells looked up by column name (`none` models an
empty/NaN cell). -/
structure TRow where
  doc_id : String
  cell : String → Option Int

/-- A label-plan table: its column names and its rows. -/
structure Table where
  cols : List String
  rows : List TRow

def dummyTRow : TRow := ⟨"", fun _ => none⟩

/-- `_get_daniel_columns`: the columns whose name starts with the annotator
column-name marker `Daniel__`. -/
def get_daniel_columns (t : Table) : List String :=
  t.cols.filter (fun c => startsWithL "Daniel__".data c.data)

/-- Indexing a table by `doc_id` (for plans with unique `doc_id`s the first
match is the match). -/
def find_row (t : Table) (d : String) : Option TRow :=
  t.rows.find? (fun r => r.doc_id == d)

/-- The upload block of `render` (`labeling_daniel.py` lines 849–868):
re-fetch the remote plan, index remote and local working copy by `doc_id`,
and `df_remote.update(df_local_idx[daniel_cols])` — for every remote row
with a matching local row, each annotator column present in both tables
takes the local value when it is set, and every other cell keeps its remote
value.  (`reset_index` restores `doc_id` as a column; column-order changes
are immaterial to cell values and are not modelled.) -/
def upload_merge (remote localT : Table) : Table :=
  let dcols := get_daniel_columns localT
  { cols := remote.cols
  , rows := remote.rows.map (fun r =>
      match find_row localT r.doc_id with
      | none => r
      | some lr =>
        { doc_id := r.doc_id
        , cell := fun c =>
            if dcols.contains c && remote.cols.contains c then
              match lr.cell c with
              | some v => some v
              | none => r.cell c
            else r.cell c }) }

theorem getD_map_of_lt {α β : Type} (f : α → β) (l : List α) (i : Nat) (h : i < l.length)
    (d : α) (d2 : β) : (l.map f).getD i d2 = f (l.getD i d) := by
  rw [List.getD_eq_getElem?_getD, List.getElem?_map, List.getElem?_eq_getElem h,
    List.getD_eq_getElem?_getD, List.getElem?_eq_getElem h]
  rfl

/-- Claim C1: after the targeted-merge upload, (a) the columns and the
row count/order are those of the freshly-fetched remote plan; every row
keeps its `doc_id`; (b) every cell of every column not belonging to this
annotator (name not starting with `Daniel__`) holds exactly its remote
value, as does every cell of a row with no matching local row; (c) on a
row with a matching local row, every annotator column present in both
tables whose local cell is set takes the local value. -/
theorem upload_merge_preserves_foreign_columns (remote localT : Table)
    (hnodup : (localT.rows.map (fun r => r.doc_id)).Nodup) :
    (upload_merge remote localT).cols = remote.cols ∧
    (upload_merge remote localT).rows.length = remote.rows.length ∧
    (∀ i, i < remote.rows.length →
      ((upload_merge remote localT).rows.getD i dummyTRow).doc_id
        = (remote.rows.getD i dummyTRow).doc_id ∧
      (∀ c, startsWithL "Daniel__".data c.data = false →
        ((upload_merge remote localT).rows.getD i dummyTRow).cell c
          = (remote.rows.getD i dummyTRow).cell c) ∧
      (find_row localT (remote.rows.getD i dummyTRow).doc_id = none →
        ∀ c, ((upload_merge remote localT).rows.getD i dummyTRow).cell c
          = (remote.rows.getD i dummyTRow).cell c) ∧
      (∀ lr c v, find_row localT (remote.rows.getD i dummyTRow).doc_id = some lr →
        startsWithL "Daniel__".data c.data = true → localT.cols.contains c = true →
        remote.cols.contains c = true → lr.cell c = some v →
        ((upload_merge remote localT).rows.getD i dummyTRow).cell c = some v)) := by
  refine ⟨rfl, List.length_map _ _, ?_⟩
  intro i hi
  have hget : (upload_merge remote localT).rows.getD i dummyTRow
      = (match find_row localT (remote.rows.getD i dummyTRow).doc_id with
         | none => remote.rows.getD i dummyTRow
         | some lr =>
           { doc_id := (remote.rows.getD i dummyTRow).doc_id
           , cell := fun c =>
               if (get_daniel_columns localT).contains c && remote.cols.contains c then
                 match lr.cell c with
                 | some v => some v
                 | none => (remote.rows.getD i dummyTRow).cell c
               else (remote.rows.getD i dummyTRow).cell c } : TRow) := by
    rw [upload_merge]
    exact getD_map_of_lt _ remote.rows i hi dummyTRow dummyTRow
  cases hfind : find_row localT (remote.rows.getD i dummyTRow).doc_id with
  | none =>
    rw [hfind] at hget
    exact ⟨by rw [hget], fun c _ => by rw [hget], fun _ c => by rw [hget],
      fun lr c v hlr _ _ _ _ => Option.noConfusion hlr⟩
  | some lr0 =>
    rw [hfind] at hget
    refine ⟨by rw [hget], ?_, ?_, ?_⟩
    · intro c hc
      rw [hget]
      have hdc : (get_daniel_columns localT).contains c = false := by
        cases hA : (get_daniel_columns localT).contains c with
        | false => rfl
        | true =>
          have hmem : c ∈ get_daniel_columns localT := List.elem_iff.mp hA
          have := (List.mem_filter.mp hmem).2
          rw [hc] at this
          cases this
      simp only [hdc, Bool.false_and, Bool.false_eq_true, if_false]
    · intro hnone
      exact Option.noConfusion hnone
    · intro lr c v hlr hpre hloc hrem hcell
      cases hlr
      rw [hget]
      have hdc : (get_daniel_columns localT).contains c = true := by
        have hcmem : c ∈ get_daniel_columns localT :=
          List.mem_filter.mpr ⟨List.elem_iff.mp hloc, hpre⟩
        exact List.elem_iff.mpr hcmem
      simp only [hdc, hrem, Bool.and_self, if_true, hcell]


/-- Witness for C1 on one-row concrete tables: the local Daniel cell (2)
overwrites the remote Daniel cell (0), while Marie's column keeps its
remote value 7. -/
theorem upload_merge_preserves_foreign_columns_witness :
    ((upload_merge
        ⟨["doc_id", "Daniel__A", "Marie__A"],
          [⟨"d1", fun c => if c = "Daniel__A" then some 0 else
            if c = "Marie__A" then some 7 else none⟩]⟩
        ⟨["doc_id", "Daniel__A", "Marie__A"],
          [⟨"d1", fun c => if c = "Daniel__A" then some 2 else
            if c = "Marie__A" then some 9 else none⟩]⟩).rows.getD 0 dummyTRow).cell
      "Marie__A" = some 7 ∧
    ((upload_merge
        ⟨["doc_id", "Daniel__A", "Marie__A"],
          [⟨"d1", fun c => if c = "Daniel__A" then some 0 else
            if c = "Marie__A" then some 7 else none⟩]⟩
        ⟨["doc_id", "Daniel__A", "Marie__A"],
          [⟨"d1", fun c => if c = "Daniel__A" then some 2 else
            if c = "Marie__A" then some 9 else none⟩]⟩).rows.getD 0 dummyTRow).cell
      "Daniel__A" = some 2 := by
  have h := upload_merge_preserves_foreign_columns
    ⟨["doc_id", "Daniel__A", "Marie__A"],
      [⟨"d1", fun c => if c = "Daniel__A" then some 0 else
        if c = "Marie__A" then some 7 else none⟩]⟩
    ⟨["doc_id", "Daniel__A", "Marie__A"],
      [⟨"d1", fun c => if c = "Daniel__A" then some 2 else
        if c = "Marie__A" then some 9 else none⟩]⟩
    (by simp)
  obtain ⟨-, -, hrow⟩ := h
  obtain ⟨-, hforeign, -, hown⟩ := hrow 0 (by simp)
  constructor
  · have := hforeign "Marie__A" (by decide)
    rw [this]
    rfl
  · exact hown ⟨"d1", fun c => if c = "Daniel__A" then some 2 else
      if c = "Marie__A" then some 9 else none⟩ "Daniel__A" 2 rfl (by decide) (by decide)
      (by decide) rfl

-- --------------------------------------------------------------------
-- utils/gdrive.py : `load_text_from_drive`  (Claim C9)
-- --------------------------------------------------------------------

/-- Is `b` a UTF-8 continuation byte? -/
def isCont (b : Nat) : Bool := decide (0x80 ≤ b ∧ b ≤ 0xBF)

/-- Valid second byte of a three-byte UTF-8 sequence with lead byte `b`
(excluding overlong encodings and surrogates, as CPython's decoder does). -/
def cont2_ok (b b2 : Nat) : Bool :=
  if b = 0xE0 then decide (0xA0 ≤ b2 ∧ b2 ≤ 0xBF)
  else if b = 0xED then decide (0x80 ≤ b2 ∧ b2 ≤ 0x9F)
  else isCont b2

/-- Valid second byte of a four-byte UTF-8 sequence with lead byte `b`. -/
def cont2_ok4 (b b2 : Nat) : Bool :=
  if b = 0xF0 then decide (0x90 ≤ b2 ∧ b2 ≤ 0xBF)
  else if b = 0xF4 then decide (0x80 ≤ b2 ∧ b2 ≤ 0x8F)
  else isCont b2

/-- Python `bytes.decode("utf-8", errors="ignore")`: decode the byte list,
dropping (not replacing) each maximal invalid subpart, including a
truncated sequence at the end of the input. -/
def utf8_decode_ignore : List Nat → List Char
  | [] => []
  | b :: rest =>
    if b < 0x80 then Char.ofNat b :: utf8_decode_ignore rest
    else if 0xC2 ≤ b ∧ b ≤ 0xDF then
      match rest with
      | [] => []
      | b2 :: rest2 =>
        if isCont b2 then
          Char.ofNat ((b - 0xC0) * 64 + (b2 - 0x80)) :: utf8_decode_ignore rest2
        else utf8_decode_ignore (b2 :: rest2)
    else if 0xE0 ≤ b ∧ b ≤ 0xEF then
      match rest with
      | [] => []
      | b2 :: rest2 =>
        if cont2_ok b b2 then
          match rest2 with
          | [] => []
          | b3 :: rest3 =>
            if isCont b3 then
              Char.ofNat ((b - 0xE0) * 4096 + (b2 - 0x80) * 64 + (b3 - 0x80))
                :: utf8_decode_ignore rest3
            else utf8_decode_ignore (b3 :: rest3)
        else utf8_decode_ignore (b2 :: rest2)
    else if 0xF0 ≤ b ∧ b ≤ 0xF4 then
      match rest with
      | [] => []
      | b2 :: rest2 =>
        if cont2_ok4 b b2 then
          match rest2 with
          | [] => []
          | b3 :: rest3 =>
            if isCont b3 then
              match rest3 with
              | [] => []
              | b4 :: rest4 =>
                if isCont b4 then
                  Char.ofNat ((b - 0xF0) * 262144 + (b2 - 0x80) * 4096
                      + (b3 - 0x80) * 64 + (b4 - 0x80)) :: utf8_decode_ignore rest4
                else utf8_decode_ignore (b4 :: rest4)
            else utf8_decode_ignore (b3 :: rest3)
        else utf8_decode_ignore (b2 :: rest2)
    else utf8_decode_ignore rest

/-- `load_text_from_drive` (`gdrive.py` lines 100–102): the downloaded bytes
are decoded as UTF-8 with `errors="ignore"`. -/
def load_text_from_drive (data : List Nat) : List Char :=
  utf8_decode_ignore data

/-- Counterexample to claim C9 as stated: decoding `[0x61, 0xFF, 0x62]`
yields `"ab"` — the undecodable byte `0xFF` is silently dropped, not
replaced by a substitute character, so the claimed replacement-substitution
behavior does not hold. -/
theorem load_text_replacement_counterexample :
    load_text_from_drive [0x61, 0xFF, 0x62] = ['a', 'b'] ∧
    load_text_from_drive [0x61, 0xFF, 0x62] ≠ ['a', Char.ofNat 0xFFFD, 'b'] ∧
    (load_text_from_drive [0x61, 0xFF, 0x62]).length ≠ 3 := by
  decide

theorem utf8_decode_ascii (l : List Nat) (h : ∀ b ∈ l, b < 0x80) :
    utf8_decode_ignore l = l.map Char.ofNat := by
  induction l with
  | nil => rfl
  | cons b rest ih =>
    have hb : b < 0x80 := h b (List.mem_cons_self b rest)
    rw [utf8_decode_ignore.eq_def]
    simp only [if_pos hb, List.map_cons]
    rw [ih (fun x hx => h x (List.mem_cons_of_mem b hx))]

theorem toNat_ofNat_of_lt (b : Nat) (h : b < 0x80) : (Char.ofNat b).toNat = b := by
  have hv : b.isValidChar := Or.inl (by omega)
  rw [Char.ofNat, dif_pos hv]
  rfl

/-- Claim C9 (amended): decoding never fails, and an undecodable byte
(0xFF, invalid anywhere in UTF-8) surrounded by ASCII content is silently
dropped: the result is exactly the decoded surrounding content, with no
replacement character (indeed no non-ASCII character) inserted. -/
theorem load_text_ignore_amended (pre post : List Nat)
    (hpre : ∀ b ∈ pre, b < 0x80) (hpost : ∀ b ∈ post, b < 0x80) :
    load_text_from_drive (pre ++ 0xFF :: post)
      = pre.map Char.ofNat ++ post.map Char.ofNat ∧
    ∀ c ∈ load_text_from_drive (pre ++ 0xFF :: post), c.toNat < 0x80 := by
  have hmain : utf8_decode_ignore (pre ++ 0xFF :: post)
      = pre.map Char.ofNat ++ post.map Char.ofNat := by
    induction pre with
    | nil =>
      show utf8_decode_ignore (0xFF :: post) = List.map Char.ofNat [] ++ post.map Char.ofNat
      rw [utf8_decode_ignore.eq_def]
      norm_num
      exact utf8_decode_ascii post hpost
    | cons b pre2 ih =>
      have hb : b < 0x80 := hpre b (List.mem_cons_self b pre2)
      show utf8_decode_ignore (b :: (pre2 ++ 0xFF :: post))
        = Char.ofNat b :: pre2.map Char.ofNat ++ post.map Char.ofNat
      rw [utf8_decode_ignore.eq_def]
      simp only [if_pos hb]
      rw [ih (fun x hx => hpre x (List.mem_cons_of_mem b hx))]
      rw [List.cons_append]
  refine ⟨hmain, ?_⟩
  intro c hc
  have hc2 : c ∈ pre.map Char.ofNat ++ post.map Char.ofNat := by
    rw [load_text_from_drive, hmain] at hc
    exact hc
  rcases List.mem_append.mp hc2 with hm | hm <;>
    obtain ⟨b, hb, rfl⟩ := List.mem_map.mp hm
  · rw [toNat_ofNat_of_lt b (hpre b hb)]; exact hpre b hb
  · rw [toNat_ofNat_of_lt b (hpost b hb)]; exact hpost b hb

/-- Witness for the amended C9 at the bytes `"hi" ++ [0xFF] ++ "!"`. -/
theorem load_text_ignore_amended_witness :
    load_text_from_drive ([104, 105] ++ 0xFF :: [33])
      = [104, 105].map Char.ofNat ++ [33].map Char.ofNat ∧
    ∀ c ∈ load_text_from_drive ([104, 105] ++ 0xFF :: [33]), c.toNat < 0x80 :=
  load_text_ignore_amended [104, 105] [33] (by decide) (by decide)

-- --------------------------------------------------------------------
-- tabs/labeling_daniel.py : keyword highlighting  (Claim C4)
-- --------------------------------------------------------------------

/-- The apostrophe character (U+0027), used in the inline style of the
highlight marker. -/
def apos : Char := Char.ofNat 39

/-- The character filter of `_sanitize_text_for_html`: ASCII control
characters other than tab/newline/carriage-return, and surrogate code
points, are removed. -/
def badChar (c : Char) : Bool :=
  decide ((c.toNat < 32 ∧ c ≠ '\t' ∧ c ≠ '\n' ∧ c ≠ '\r')
    ∨ (0xD800 ≤ c.toNat ∧ c.toNat ≤ 0xDFFF))

def sanitize_chars (l : List Char) : List Char := l.filter (fun c => !badChar c)

/-- Python `html.escape` on one character. -/
def html_escape_char (c : Char) : List Char :=
  if c = '&' then "&amp;".data
  else if c = '<' then "&lt;".data
  else if c = '>' then "&gt;".data
  else if c = Char.ofNat 34 then "&quot;".data
  else if c = apos then "&#x27;".data
  else [c]

/-- Python `html.escape`. -/
def html_escape (l : List Char) : List Char :=
  l.foldr (fun c acc => html_escape_char c ++ acc) []

/-- `_sanitize_text_for_html`: strip problematic characters, then
HTML-escape. -/
def sanitize_text_for_html (text : List Char) : List Char :=
  html_escape (sanitize_chars text)

/-- Case-insensitive "pat is at the start of s" (ASCII case folding, as the
repository's keywords are ASCII). -/
def ciStartsWith : List Char → List Char → Bool
  | [], _ => true
  | _ :: _, [] => false
  | p :: ps, c :: cs => (p.toLower == c.toLower) && ciStartsWith ps cs

/-- Case-insensitive substring occurrence. -/
def ciContains (pat : List Char) : List Char → Bool
  | [] => ciStartsWith pat []
  | c :: rest => ciStartsWith pat (c :: rest) || ciContains pat rest

/-- One `re.sub` pass with a literal (escaped) pattern under `IGNORECASE`:
scan left to right; at a match, wrap the matched span in `pre`/`post` and
continue after it; otherwise keep the character.  The fuel argument (always
called with the text length) only makes the recursion structural; each step
consumes at least one character, so the fuel never runs out. -/
def subCIAux (pat pre post : List Char) : Nat → List Char → List Char
  | _, [] => []
  | 0, s => s
  | fuel + 1, c :: rest =>
    if ciStartsWith pat (c :: rest) = true then
      pre ++ (c :: rest).take pat.length ++ post
        ++ subCIAux pat pre post fuel ((c :: rest).drop pat.length)
    else c :: subCIAux pat pre post fuel rest

def subCI (pat pre post s : List Char) : List Char :=
  subCIAux pat pre post s.length s

/-- A `(keyword, color)` pair of `_highlight_keywords_multi`. -/
structure KwPair where
  keyword : String
  color : String

/-- Stable insertion into a length-descending list: the new element goes
before the first element that is not strictly longer (so earlier elements
of equal length stay first, matching Python's stable `sorted`). -/
def insertByLenDesc (x : KwPair) : List KwPair → List KwPair
  | [] => [x]
  | q :: qs =>
    if x.keyword.length < q.keyword.length then q :: insertByLenDesc x qs
    else x :: q :: qs

/-- Python `sorted(pairs, key=len(keyword), reverse=True)` (a stable sort;
any stable algorithm computes the same list). -/
def sortByLenDesc : List KwPair → List KwPair
  | [] => []
  | x :: xs => insertByLenDesc x (sortByLenDesc xs)

/-- The opening highlight marker of `_highlight_keywords_multi`. -/
def mark_open (color : String) : List Char :=
  "<mark style=".data ++ [apos] ++ "background-color:".data ++ color.data
    ++ "; padding:0 2px;".data ++ [apos] ++ ">".data

def mark_close : List Char := "</mark>".data

/-- `_highlight_keywords_multi`: sanitize and escape the text, sort the
pairs by keyword length descending, then for each pair substitute every
case-insensitive occurrence of the escaped keyword in the accumulated
string, wrapping it in the marker carrying that pair's color (empty
keywords are skipped). -/
def highlight_keywords_multi (text : String) (pairs : List KwPair) : List Char :=
  let safe := sanitize_text_for_html text.data
  if pairs.isEmpty then safe
  else
    (sortByLenDesc pairs).foldl (fun acc p =>
      if p.keyword.isEmpty then acc
      else subCI (html_escape p.keyword.data) (mark_open p.color) mark_close acc) safe

def bias_pairs : List KwPair := [⟨"bias analysis", "#ffe58a"⟩, ⟨"bias", "#ffcccc"⟩]

/-- Counterexample to claim C4 as stated: with keywords "bias analysis" and
"bias" on the text "bias analysis", the final output contains the shorter
keyword separately wrapped in its own marker (nested inside the longer
phrase's marker), and no longer contains the longer phrase wrapped as one
contiguous unit — the later pass for the shorter keyword re-matches inside
the already-inserted markup. -/
theorem highlight_shorter_marked_inside_counterexample :
    containsSub (mark_open "#ffcccc" ++ "bias".data ++ mark_close)
      (highlight_keywords_multi "bias analysis" bias_pairs) = true ∧
    containsSub (mark_open "#ffe58a" ++ "bias analysis".data ++ mark_close)
      (highlight_keywords_multi "bias analysis" bias_pairs) = false := by
  decide

theorem ciStartsWith_length_le (pat s : List Char) (h : ciStartsWith pat s = true) :
    pat.length ≤ s.length := by
  induction pat generalizing s with
  | nil => simp
  | cons p ps ih =>
    cases s with
    | nil => cases h
    | cons c cs =>
      have := (Bool.and_eq_true _ _).mp h
      simpa using ih cs this.2

theorem ciStartsWith_take (pat s : List Char) (h : ciStartsWith pat s = true) :
    ciStartsWith pat (s.take pat.length) = true := by
  induction pat generalizing s with
  | nil => rfl
  | cons p ps ih =>
    cases s with
    | nil => cases h
    | cons c cs =>
      have h2 := (Bool.and_eq_true _ _).mp h
      simp only [List.length_cons, List.take_succ_cons, ciStartsWith]
      exact (Bool.and_eq_true _ _).mpr ⟨h2.1, ih cs h2.2⟩

theorem subCIAux_wraps (pat pre post : List Char) (hpat : pat ≠ []) :
    ∀ fuel s, s.length ≤ fuel → ciContains pat s = true →
    ∃ t u v, t.length = pat.length ∧ ciStartsWith pat t = true ∧
      subCIAux pat pre post fuel s = u ++ (pre ++ t ++ post) ++ v := by
  intro fuel
  induction fuel with
  | zero =>
    intro s hlen hc
    have hs : s = [] := List.length_eq_zero.mp (Nat.le_zero.mp hlen)
    rw [hs] at hc
    obtain ⟨p, ps, rfl⟩ := List.exists_cons_of_ne_nil hpat
    cases hc
  | succ fuel ih =>
    intro s hlen hc
    cases s with
    | nil =>
      obtain ⟨p, ps, rfl⟩ := List.exists_cons_of_ne_nil hpat
      cases hc
    | cons c rest =>
      by_cases hsw : ciStartsWith pat (c :: rest) = true
      · refine ⟨(c :: rest).take pat.length, [],
          subCIAux pat pre post fuel ((c :: rest).drop pat.length), ?_, ?_, ?_⟩
        · rw [List.length_take]
          exact Nat.min_eq_left (ciStartsWith_length_le pat (c :: rest) hsw)
        · exact ciStartsWith_take pat (c :: rest) hsw
        · simp only [subCIAux, if_pos hsw, List.nil_append, List.append_assoc]
      · have hcrest : ciContains pat rest = true := by
          have := hc
          rw [ciContains] at this
          rcases (Bool.or_eq_true _ _).mp this with h1 | h1
          · exact absurd h1 hsw
          · exact h1
        obtain ⟨t, u, v, ht1, ht2, heq⟩ :=
          ih rest (by simp only [List.length_cons] at hlen; omega) hcrest
        refine ⟨t, c :: u, v, ht1, ht2, ?_⟩
        simp only [subCIAux, if_neg hsw, heq, List.cons_append]

/-- Claim C4 (amended): during its own pass, every keyword occurrence —
in particular the longer phrase, whose pass runs first — is wrapped as one
contiguous `pre ++ match ++ post` unit; but later passes for shorter
keywords re-match inside the inserted markup, so on the example text
"bias analysis" with keywords "bias analysis" and "bias" the final output
nests a separate mark for "bias" inside the longer phrase's mark. -/
theorem highlight_longest_first_amended :
    (∀ (pat pre post s : List Char), pat ≠ [] → ciContains pat s = true →
      ∃ t u v, t.length = pat.length ∧ ciStartsWith pat t = true ∧
        subCI pat pre post s = u ++ (pre ++ t ++ post) ++ v) ∧
    highlight_keywords_multi "bias analysis" bias_pairs
      = mark_open "#ffe58a" ++ mark_open "#ffcccc" ++ "bias".data ++ mark_close
        ++ " analysis".data ++ mark_close := by
  constructor
  · intro pat pre post s hpat hc
    exact subCIAux_wraps pat pre post hpat s.length s (Nat.le_refl _) hc
  · decide

/-- Witness for the amended C4: the single pass for "bias" on the text
"Bias x" wraps its (case-insensitive) occurrence as one unit. -/
theorem highlight_longest_first_amended_witness :
    ∃ t u v, t.length = "bias".data.length ∧ ciStartsWith "bias".data t = true ∧
      subCI "bias".data (mark_open "#ffcccc") mark_close "Bias x".data
        = u ++ (mark_open "#ffcccc" ++ t ++ mark_close) ++ v :=
  highlight_longest_first_amended.1 "bias".data (mark_open "#ffcccc") mark_close
    "Bias x".data (by decide) (by decide)
